import Mathlib

/-!
Verification of the nostr-relay social-graph indexer against its
natural-language specification.  The definitions below are a shallow
embedding of the Rust sources: `src/events.rs` (event model, canonical id,
validation), `src/indexer.rs` (in-memory profile / contact / inverted-index
store and search), `src/relay_client.rs` (message dispatch and the two REQ
subscription frames), `src/filters.rs` (filter and request message shapes)
and `src/turso.rs` (hex / bech32 identity codec).  Rust `HashMap`s are
modelled as association lists with first-match lookup and in-place
replacement on insert; `Vec` buckets keep their insertion order.  External
effects (the websocket, the Turso mirror, logging) do not touch the
in-memory state and are outside the embedding; `Utc::now()` and
`serde_json` content parsing enter as explicit parameters.  All recursion
is structural so every definition evaluates by kernel reduction.
-/

set_option maxRecDepth 100000

namespace Nostr

/-- Lookup in an association list, first match wins (models `HashMap::get`). -/
def mapGet {κ α : Type} [DecidableEq κ] : List (κ × α) → κ → Option α
  | [], _ => none
  | (k', v) :: rest, k => if k' = k then some v else mapGet rest k

/-- Insert into an association list, replacing the first binding of the key
(models `HashMap::insert`). -/
def mapInsert {κ α : Type} [DecidableEq κ] : List (κ × α) → κ → α → List (κ × α)
  | [], k, v => [(k, v)]
  | (k', v') :: rest, k, v =>
      if k' = k then (k, v) :: rest else (k', v') :: mapInsert rest k v

/-- Byte-lexicographic order on byte lists, as Rust's `Ord` for `Vec<u8>` /
`String` (UTF-8 bytes). -/
def bytesLe : List Nat → List Nat → Bool
  | [], _ => true
  | _ :: _, [] => false
  | a :: as, b :: bs => if a < b then true else if b < a then false else bytesLe as bs

/-- Remove consecutive duplicates keeping the first of each run, as
`Vec::dedup` (helper carrying the previous element). -/
def dedupRun : String → List String → List String
  | _, [] => []
  | prev, x :: rest => if x = prev then dedupRun prev rest else x :: dedupRun x rest

/-- Remove consecutive duplicates, as Rust `Vec::dedup`. -/
def dedupConsec : List String → List String
  | [] => []
  | x :: rest => x :: dedupRun x rest

/-- Value of one hex digit, accepting both cases as `hex::decode` does. -/
def hexDigitVal (c : Char) : Option Nat :=
  if '0' ≤ c ∧ c ≤ '9' then some (c.toNat - 48)
  else if 'a' ≤ c ∧ c ≤ 'f' then some (c.toNat - 87)
  else if 'A' ≤ c ∧ c ≤ 'F' then some (c.toNat - 55)
  else none

/-- Decode a hex string two digits per byte; `none` on an odd length or a
non-hex digit, as `hex::decode`. -/
def hexDecodeChars : List Char → Option (List Nat)
  | [] => some []
  | [_] => none
  | c1 :: c2 :: rest => do
      let h ← hexDigitVal c1
      let l ← hexDigitVal c2
      let tail ← hexDecodeChars rest
      pure ((h * 16 + l) :: tail)

/-- Decode a hex string to bytes (models `hex::decode`). -/
def hexDecode (s : String) : Option (List Nat) := hexDecodeChars s.data

/-- Lowercase hex digit for a value below 16. -/
def hexDigitChar (n : Nat) : Char := "0123456789abcdef".data.getD n '0'

/-- Lowercase hex encoding of a byte list (models `hex::encode`). -/
def hexEncode (bytes : List Nat) : String :=
  String.mk ((bytes.map (fun b => [hexDigitChar (b / 16), hexDigitChar (b % 16)])).flatten)

/-- UTF-8 encoding of a single character. -/
def charUtf8 (c : Char) : List Nat :=
  let n := c.toNat
  if n < 128 then [n]
  else if n < 2048 then [192 ||| (n >>> 6), 128 ||| (n &&& 63)]
  else if n < 65536 then
    [224 ||| (n >>> 12), 128 ||| ((n >>> 6) &&& 63), 128 ||| (n &&& 63)]
  else
    [240 ||| (n >>> 18), 128 ||| ((n >>> 12) &&& 63),
     128 ||| ((n >>> 6) &&& 63), 128 ||| (n &&& 63)]

/-- UTF-8 bytes of a string, the view Rust's `str::len` and hashing take. -/
def strBytes (s : String) : List Nat := (s.data.map charUtf8).flatten

/-- Byte length of a character list, as Rust `str::len` on that text. -/
def byteLen (cs : List Char) : Nat := ((cs.map charUtf8).flatten).length

/-- SHA-256 round constants of FIPS 180-4 (decimal rendering of the
standard table). -/
def shaK : List Nat :=
  [1116352408, 1899447441, 3049323471, 3921009573,
   961987163, 1508970993, 2453635748, 2870763221,
   3624381080, 310598401, 607225278, 1426881987,
   1925078388, 2162078206, 2614888103, 3248222580,
   3835390401, 4022224774, 264347078, 604807628,
   770255983, 1249150122, 1555081692, 1996064986,
   2554220882, 2821834349, 2952996808, 3210313671,
   3336571891, 3584528711, 113926993, 338241895,
   666307205, 773529912, 1294757372, 1396182291,
   1695183700, 1986661051, 2177026350, 2456956037,
   2730485921, 2820302411, 3259730800, 3345764771,
   3516065817, 3600352804, 4094571909, 275423344,
   430227734, 506948616, 659060556, 883997877,
   958139571, 1322822218, 1537002063, 1747873779,
   1955562222, 2024104815, 2227730452, 2361852424,
   2428436474, 2756734187, 3204031479, 3329325298]

/-- Working state of the SHA-256 compression function. -/
structure ShaState where
  a : Nat
  b : Nat
  c : Nat
  d : Nat
  e : Nat
  f : Nat
  g : Nat
  h : Nat

/-- Right rotation of a 32-bit word. -/
def rotr (n x : Nat) : Nat := ((x >>> n) ||| (x <<< (32 - n))) &&& 4294967295

/-- Pad a byte message per SHA-256: append 0x80, zeros, and the 64-bit
big-endian bit length. -/
def shaPad (m : List Nat) : List Nat :=
  let len := m.length
  let zeros := (119 - len % 64) % 64
  let bitLen := len * 8
  m ++ [0x80] ++ List.replicate zeros 0 ++
    [(bitLen >>> 56) &&& 255, (bitLen >>> 48) &&& 255, (bitLen >>> 40) &&& 255,
     (bitLen >>> 32) &&& 255, (bitLen >>> 24) &&& 255, (bitLen >>> 16) &&& 255,
     (bitLen >>> 8) &&& 255, bitLen &&& 255]

/-- Split a padded byte list into 64-byte blocks (structural accumulator). -/
def toBlocksAux : List Nat → List Nat → Nat → List (List Nat)
  | [], acc, _ => if acc = [] then [] else [acc.reverse]
  | x :: rest, acc, n =>
      if n = 63 then (x :: acc).reverse :: toBlocksAux rest [] 0
      else toBlocksAux rest (x :: acc) (n + 1)

/-- Group bytes into big-endian 32-bit words. -/
def toWords : List Nat → List Nat
  | b0 :: b1 :: b2 :: b3 :: rest =>
      ((((b0 <<< 8) ||| b1) <<< 8 ||| b2) <<< 8 ||| b3) :: toWords rest
  | _ => []

/-- Next word of the SHA-256 message schedule from the words so far. -/
def nextScheduleWord (acc : List Nat) : Nat :=
  let i := acc.length
  let w15 := acc.getD (i - 15) 0
  let w2 := acc.getD (i - 2) 0
  let s0 := (rotr 7 w15) ^^^ (rotr 18 w15) ^^^ (w15 >>> 3)
  let s1 := (rotr 17 w2) ^^^ (rotr 19 w2) ^^^ (w2 >>> 10)
  (acc.getD (i - 16) 0 + s0 + acc.getD (i - 7) 0 + s1) % 4294967296

/-- Extend the 16 block words to the 64-word schedule. -/
def extendSchedule : Nat → List Nat → List Nat
  | 0, acc => acc
  | n + 1, acc => extendSchedule n (acc ++ [nextScheduleWord acc])

/-- One SHA-256 round for a (constant, schedule word) pair. -/
def shaRound (st : ShaState) (kw : Nat × Nat) : ShaState :=
  let s1 := (rotr 6 st.e) ^^^ (rotr 11 st.e) ^^^ (rotr 25 st.e)
  let ch := (st.e &&& st.f) ^^^ ((st.e ^^^ 4294967295) &&& st.g)
  let t1 := (st.h + s1 + ch + kw.1 + kw.2) % 4294967296
  let s0 := (rotr 2 st.a) ^^^ (rotr 13 st.a) ^^^ (rotr 22 st.a)
  let mj := (st.a &&& st.b) ^^^ (st.a &&& st.c) ^^^ (st.b &&& st.c)
  let t2 := (s0 + mj) % 4294967296
  ⟨(t1 + t2) % 4294967296, st.a, st.b, st.c, (st.d + t1) % 4294967296, st.e, st.f, st.g⟩

/-- Compress one 64-byte block into the hash state. -/
def compressBlock (h : ShaState) (block : List Nat) : ShaState :=
  let w := extendSchedule 48 (toWords block)
  let r := (shaK.zip w).foldl shaRound h
  ⟨(h.a + r.a) % 4294967296, (h.b + r.b) % 4294967296, (h.c + r.c) % 4294967296,
   (h.d + r.d) % 4294967296, (h.e + r.e) % 4294967296, (h.f + r.f) % 4294967296,
   (h.g + r.g) % 4294967296, (h.h + r.h) % 4294967296⟩

/-- Big-endian bytes of a 32-bit word. -/
def wordBytes (w : Nat) : List Nat :=
  [(w >>> 24) &&& 255, (w >>> 16) &&& 255, (w >>> 8) &&& 255, w &&& 255]

/-- SHA-256 digest (32 bytes) of a byte message. -/
def sha256 (m : List Nat) : List Nat :=
  let st := (toBlocksAux (shaPad m) [] 0).foldl compressBlock
    ⟨1779033703, 3144134277, 1013904242, 2773480762,
     1359893119, 2600822924, 528734635, 1541459225⟩
  wordBytes st.a ++ wordBytes st.b ++ wordBytes st.c ++ wordBytes st.d ++
    wordBytes st.e ++ wordBytes st.f ++ wordBytes st.g ++ wordBytes st.h

/-- Generator coefficients of the bech32 checksum (BIP-173). -/
def bech32Gen : List Nat :=
  [996825010, 642813549, 513874426, 1027748829, 705979059]

/-- One step of the bech32 polymod over a 5-bit value. -/
def polymodStep (chk : Nat) (v : Nat) : Nat :=
  let b := chk >>> 25
  let chk1 := (((chk &&& 33554431) <<< 5) ^^^ v)
  (List.range 5).foldl
    (fun c i => if (b >>> i) &&& 1 = 1 then c ^^^ bech32Gen.getD i 0 else c) chk1

/-- Bech32 polymod of a value sequence. -/
def bech32Polymod (values : List Nat) : Nat := values.foldl polymodStep 1

/-- Expansion of the human-readable part for checksumming. -/
def hrpExpand (hrp : String) : List Nat :=
  hrp.data.map (fun c => c.toNat >>> 5) ++ [0] ++ hrp.data.map (fun c => c.toNat &&& 31)

/-- Bech32 checksum (six 5-bit values) for an HRP and data part. -/
def bech32Checksum (hrp : String) (data : List Nat) : List Nat :=
  let pm := (bech32Polymod (hrpExpand hrp ++ data ++ [0, 0, 0, 0, 0, 0])) ^^^ 1
  (List.range 6).map (fun i => (pm >>> (5 * (5 - i))) &&& 31)

/-- Bech32 data-part character for a 5-bit value. -/
def b32Char (d : Nat) : Char := "qpzry9x8gf2tvdw0s3jn54khce6mua7l".data.getD d 'q'

/-- One byte of the 8-bit to 5-bit regrouping; state is (bit accumulator,
pending bit count, output groups). -/
def base32Step (st : Nat × Nat × List Nat) (b : Nat) : Nat × Nat × List Nat :=
  let acc := (st.1 <<< 8) ||| b
  let bits := st.2.1 + 8
  let out := st.2.2
  let g1 := (acc >>> (bits - 5)) &&& 31
  let bits1 := bits - 5
  if 5 ≤ bits1 then
    let g2 := (acc >>> (bits1 - 5)) &&& 31
    (acc, bits1 - 5, out ++ [g1, g2])
  else (acc, bits1, out ++ [g1])

/-- Regroup bytes into 5-bit values, zero-padding the tail, as the
`ToBase32` conversion of the `bech32` crate. -/
def toBase32 (bytes : List Nat) : List Nat :=
  let st := bytes.foldl base32Step (0, 0, [])
  if 0 < st.2.1 then st.2.2 ++ [(st.1 <<< (5 - st.2.1)) &&& 31] else st.2.2

/-- Bech32 encoding of a data part under an HRP (`bech32::encode`, variant
Bech32). -/
def bech32Encode (hrp : String) (data : List Nat) : String :=
  hrp ++ "1" ++ String.mk ((data ++ bech32Checksum hrp data).map b32Char)

/-- Model of `turso.rs::hex_to_npub`: decode hex, defaulting to the empty
byte string on failure, and bech32-encode under HRP `npub`; never a typed
error. -/
def hex_to_npub (hex_pubkey : String) : String :=
  bech32Encode "npub" (toBase32 ((hexDecode hex_pubkey).getD []))

/-- Model of `turso.rs::npub_to_hex`: the source is a stub ignoring its
argument and returning `Ok(String::new())`. -/
def npub_to_hex (_npubStr : String) : Except String String := .ok ""

/-- JSON values, standing for `serde_json::Value` (numbers restricted to
the integers the indexer's wire data uses). -/
inductive Json where
  | null
  | bool (b : Bool)
  | num (n : Int)
  | str (s : String)
  | arr (xs : List Json)
  | obj (fields : List (String × Json))

/-- String content of a JSON value, as `Value::as_str`. -/
def Json.asStr : Json → Option String
  | .str s => some s
  | _ => none

/-- Integer content of a JSON value, as `Value::as_i64`. -/
def Json.asInt : Json → Option Int
  | .num n => some n
  | _ => none

/-- Object field access, as `Value::get` on an object. -/
def Json.getField : Json → String → Option Json
  | .obj fs, k => mapGet fs k
  | _, _ => none

/-- Array content of a JSON value, as `Value::as_array`. -/
def Json.asArr : Json → Option (List Json)
  | .arr xs => some xs
  | _ => none

/-- JSON string escaping as `serde_json` performs it: quote, backslash and
the control characters. -/
def escapeChar (c : Char) : List Char :=
  if c = '"' then ['\\', '"']
  else if c = '\\' then ['\\', '\\']
  else if c.toNat = 8 then ['\\', 'b']
  else if c.toNat = 9 then ['\\', 't']
  else if c.toNat = 10 then ['\\', 'n']
  else if c.toNat = 12 then ['\\', 'f']
  else if c.toNat = 13 then ['\\', 'r']
  else if c.toNat < 32 then
    '\\' :: 'u' :: '0' :: '0' ::
      [hexDigitChar (c.toNat >>> 4), hexDigitChar (c.toNat &&& 15)]
  else [c]

/-- Serialized JSON string literal with quotes, as `serde_json` writes it. -/
def strLit (s : String) : String :=
  "\"" ++ String.mk ((s.data.map escapeChar).flatten) ++ "\""

/-- Comma-joined concatenation, the compact separator of `serde_json`. -/
def commaJoin : List String → String
  | [] => ""
  | [x] => x
  | x :: y :: rest => x ++ "," ++ commaJoin (y :: rest)

/-- Serialized JSON array of strings. -/
def strArrLit (l : List String) : String := "[" ++ commaJoin (l.map strLit) ++ "]"

/-- Serialized JSON array of string arrays, the shape of `Event::tags`. -/
def tagsLit (tags : List (List String)) : String :=
  "[" ++ commaJoin (tags.map strArrLit) ++ "]"

/-- The wire event of `events.rs` (`id`, `pubkey`, `created_at`, `kind`,
`tags`, `content`, `sig`). -/
structure Event where
  id : String
  pubkey : String
  created_at : Int
  kind : Nat
  tags : List (List String)
  content : String
  sig : String
deriving DecidableEq

/-- Canonical serialization `[0, pubkey, created_at, kind, tags, content]`
in compact JSON, exactly the string `serde_json::to_string` produces for
`Event::serialize_for_id`. -/
def serialize_for_id (e : Event) : String :=
  "[0," ++ strLit e.pubkey ++ "," ++ toString e.created_at ++ "," ++ toString e.kind
    ++ "," ++ tagsLit e.tags ++ "," ++ strLit e.content ++ "]"

/-- Model of `Event::calculate_id`: lowercase hex of the SHA-256 of the
canonical serialization. -/
def calculate_id (e : Event) : String :=
  hexEncode (sha256 (strBytes (serialize_for_id e)))

/-- Compact JSON `serde_json::to_string` of the full event struct, fields
in declaration order; its byte length is the event size `validate` checks. -/
def eventJsonString (e : Event) : String :=
  "\x7b\"id\":" ++ strLit e.id ++ ",\"pubkey\":" ++ strLit e.pubkey
    ++ ",\"created_at\":" ++ toString e.created_at ++ ",\"kind\":" ++ toString e.kind
    ++ ",\"tags\":" ++ tagsLit e.tags ++ ",\"content\":" ++ strLit e.content
    ++ ",\"sig\":" ++ strLit e.sig ++ "\x7d"

/-- Error taxonomy of `error.rs` restricted to the constructors the
embedded components raise. -/
inductive RelayError where
  | InvalidEvent (msg : String)
  | Serialization (msg : String)
  | Subscription (msg : String)
  | Internal (msg : String)
  | HexDecode (msg : String)
deriving DecidableEq

/-- The limits of `config.rs::LimitsConfig`. -/
structure LimitsConfig where
  max_event_size : Nat
  max_events_per_request : Nat
  max_filters_per_subscription : Nat
  max_subscriptions_per_connection : Nat
  rate_limit_events_per_second : Nat
deriving DecidableEq

/-- Model of `Event::validate`.  The secp256k1 check of
`Event::verify_signature` is the parameter `verify_sig`, applied to the
fields it reads — `pubkey`, `id` and `sig` — since the cryptographic
library is outside the embedding; `now` stands for `Utc::now().timestamp()`.
The checks, in source order: serialized size, age window, future window,
signature.  No other field of the event is inspected. -/
def validate (verify_sig : String → String → String → Except RelayError Bool)
    (now : Int) (limits : LimitsConfig) (e : Event) : Except RelayError Unit :=
  let event_size := (strBytes (eventJsonString e)).length
  if limits.max_event_size < event_size then
    .error (.InvalidEvent "Event too large")
  else if e.created_at < now - 3600 then
    .error (.InvalidEvent "Event too old")
  else if now + 300 < e.created_at then
    .error (.InvalidEvent "Event too far in the future")
  else
    match verify_sig e.pubkey e.id e.sig with
    | .error er => .error er
    | .ok true => .ok ()
    | .ok false => .error (.InvalidEvent "Invalid signature")

/-- Profile record of `indexer.rs` (kind-0 data); `indexed_at` is the
`Utc::now()` timestamp passed in as `now`. -/
structure Profile where
  pubkey : String
  name : Option String
  display_name : Option String
  about : Option String
  picture : Option String
  banner : Option String
  website : Option String
  lud16 : Option String
  nip05 : Option String
  created_at : Int
  indexed_at : Int
  relay_sources : List String
  search_terms : List String
deriving DecidableEq

/-- Contact edge of `indexer.rs` (kind-3 p-tag). -/
structure Contact where
  follower_pubkey : String
  following_pubkey : String
  relay : Option String
  petname : Option String
  created_at : Int
  indexed_at : Int
deriving DecidableEq

/-- Counters of `indexer.rs::IndexerStats`. -/
structure IndexerStats where
  total_profiles : Nat
  total_relationships : Nat
  relays_indexed : Nat
  last_indexed : Option Int
  search_index_size : Nat
deriving DecidableEq

/-- Search result envelope of `indexer.rs::ProfileSearchResult`. -/
structure ProfileSearchResult where
  profiles : List Profile
  total_count : Nat
  page : Nat
  per_page : Nat
deriving DecidableEq

/-- In-memory state of `indexer.rs::Indexer`: profile map, edge map keyed
by (follower, followee), inverted term index (term to pubkey vector), and
the stats counters. -/
structure IndexerState where
  profiles : List (String × Profile)
  relationships : List ((String × String) × Contact)
  search_index : List (String × List String)
  stats : IndexerStats
deriving DecidableEq

/-- The state `Indexer::new` starts from. -/
def emptyIndexer : IndexerState := ⟨[], [], [], ⟨0, 0, 0, none, 0⟩⟩

/-- Whitespace split of a character list (helper of the tokenizer), as
`str::split_whitespace`: empty words are skipped. -/
def splitWsAux : List Char → List Char → List (List Char)
  | [], cur => if cur = [] then [] else [cur.reverse]
  | c :: rest, cur =>
      if c.isWhitespace then
        if cur = [] then splitWsAux rest [] else cur.reverse :: splitWsAux rest []
      else splitWsAux rest (c :: cur)

/-- Whitespace split of a string. -/
def splitWhitespaceL (s : String) : List (List Char) := splitWsAux s.data []

/-- Trim non-alphanumeric characters from both ends, as
`str::trim_matches(|c| !c.is_alphanumeric())`. -/
def trimNonAlnum (l : List Char) : List Char :=
  ((l.dropWhile (fun c => !c.isAlphanum)).reverse.dropWhile (fun c => !c.isAlphanum)).reverse

/-- Model of `Indexer::extract_search_terms`: split on whitespace, keep
words longer than 2 bytes, lowercase, trim non-alphanumeric edges, drop
empties. -/
def extract_search_terms (text : String) : List String :=
  (((splitWhitespaceL text).filter (fun w => 2 < byteLen w)).map
    (fun w => String.mk (trimNonAlnum (w.map Char.toLower)))).filter (fun s => s != "")

/-- Byte-lexicographic order on strings, the `Ord` Rust's `Vec::sort` uses
for `String`. -/
def strLe (a b : String) : Prop := bytesLe (strBytes a) (strBytes b) = true

instance : DecidableRel strLe := fun a b => instDecidableEqBool (bytesLe (strBytes a) (strBytes b)) true

/-- Model of `Indexer::extract_profile_search_terms`: tokenize `name`,
`display_name` and `about`, append the lowercased `nip05` verbatim, sort
and drop duplicates.  `insertionSort` is a stable sort and so computes the
same list as Rust's stable `sort`. -/
def extract_profile_search_terms (profile_data : Json) : List String :=
  let t1 := match (profile_data.getField "name").bind Json.asStr with
    | some name => extract_search_terms name
    | none => []
  let t2 := match (profile_data.getField "display_name").bind Json.asStr with
    | some dn => extract_search_terms dn
    | none => []
  let t3 := match (profile_data.getField "about").bind Json.asStr with
    | some about => extract_search_terms about
    | none => []
  let t4 := match (profile_data.getField "nip05").bind Json.asStr with
    | some nip05 => [String.mk (nip05.data.map Char.toLower)]
    | none => []
  dedupConsec (List.insertionSort strLe (t1 ++ t2 ++ t3 ++ t4))

/-- The profile record `index_profile_event` builds from the parsed
content object. -/
def decodeProfile (now : Int) (profile_data : Json) (e : Event)
    (relay_source : String) (search_terms : List String) : Profile :=
  { pubkey := e.pubkey,
    name := (profile_data.getField "name").bind Json.asStr,
    display_name := (profile_data.getField "display_name").bind Json.asStr,
    about := (profile_data.getField "about").bind Json.asStr,
    picture := (profile_data.getField "picture").bind Json.asStr,
    banner := (profile_data.getField "banner").bind Json.asStr,
    website := (profile_data.getField "website").bind Json.asStr,
    lud16 := (profile_data.getField "lud16").bind Json.asStr,
    nip05 := (profile_data.getField "nip05").bind Json.asStr,
    created_at := e.created_at,
    indexed_at := now,
    relay_sources := [relay_source],
    search_terms := search_terms }

/-- Append a pubkey to a term's bucket, creating the bucket when absent, as
`search_index.entry(term).or_insert_with(Vec::new).push(pubkey)`. -/
def bucketPush (idx : List (String × List String)) (term pk : String) :
    List (String × List String) :=
  match mapGet idx term with
  | some l => mapInsert idx term (l ++ [pk])
  | none => mapInsert idx term [pk]

/-- Push a pubkey into the buckets of all its terms, in term order. -/
def insertTerms (idx : List (String × List String)) (pk : String)
    (terms : List String) : List (String × List String) :=
  terms.foldl (fun i t => bucketPush i t pk) idx

/-- Model of `Indexer::update_stats`: recompute the totals and stamp
`last_indexed`. -/
def updateStats (now : Int) (st : IndexerState) : IndexerState :=
  { st with stats :=
    { total_profiles := st.profiles.length,
      total_relationships := st.relationships.length,
      relays_indexed := st.stats.relays_indexed,
      last_indexed := some now,
      search_index_size := st.search_index.length } }

/-- Model of `Indexer::index_profile_event`.  `parse` stands for
`serde_json::from_str` on the event content.  The kind and JSON checks
precede every mutation; on success the profile is inserted unconditionally
(no `created_at` comparison) and the new terms are pushed into the
inverted index (old term entries are not removed).  The Turso write-through
is an external effect with no bearing on this state. -/
def index_profile_event (parse : String → Option Json) (now : Int)
    (st : IndexerState) (e : Event) (relay_source : String) :
    IndexerState × Option RelayError :=
  if e.kind ≠ 0 then
    (st, some (.InvalidEvent "Expected kind 0 event for profile"))
  else
    match parse e.content with
    | none => (st, some (.InvalidEvent "Invalid profile JSON"))
    | some profile_data =>
      let search_terms := extract_profile_search_terms profile_data
      let profile := decodeProfile now profile_data e relay_source search_terms
      (updateStats now
        { st with
          profiles := mapInsert st.profiles e.pubkey profile,
          search_index := insertTerms st.search_index e.pubkey search_terms }, none)

/-- Contact built from one p tag: element 1 is the followee, optional 2 the
relay, optional 3 the petname. -/
def contactOfTag (now : Int) (e : Event) (t1 : String) (rest : List String) : Contact :=
  { follower_pubkey := e.pubkey,
    following_pubkey := t1,
    relay := rest[0]?,
    petname := rest[1]?,
    created_at := e.created_at,
    indexed_at := now }

/-- Process one tag of a kind-3 event: insert an edge for a p tag of length
at least 2, leave the map alone otherwise. -/
def upsertContact (now : Int) (e : Event)
    (rels : List ((String × String) × Contact)) (tag : List String) :
    List ((String × String) × Contact) :=
  match tag with
  | t0 :: t1 :: rest =>
      if t0 = "p" then mapInsert rels (e.pubkey, t1) (contactOfTag now e t1 rest)
      else rels
  | _ => rels

/-- Model of `Indexer::index_contact_event`: after the kind check, one
upsert per p tag keyed by (follower, followee); nothing is deleted and no
timestamp is compared (`relay_source` is unused in the source body too). -/
def index_contact_event (now : Int) (st : IndexerState) (e : Event)
    (_relay_source : String) : IndexerState × Option RelayError :=
  if e.kind ≠ 3 then
    (st, some (.InvalidEvent "Expected kind 3 event for contacts"))
  else
    (updateStats now
      { st with relationships := e.tags.foldl (upsertContact now e) st.relationships }, none)

/-- Append a pubkey unless already present, as the `contains` check of
`search_profiles`. -/
def addUnique (acc : List String) (pk : String) : List String :=
  if pk ∈ acc then acc else acc ++ [pk]

/-- Accumulate one query term's bucket into the candidate list, the loop
body of `search_profiles`. -/
def termLookup (idx : List (String × List String)) (acc : List String)
    (t : String) : List String :=
  match mapGet idx t with
  | some pks => pks.foldl addUnique acc
  | none => acc

/-- Candidate pubkeys of a query: the deduplicated union, in first-seen
order, of the buckets of the query terms. -/
def searchCandidates (idx : List (String × List String)) (terms : List String) :
    List String :=
  terms.foldl (termLookup idx) []

/-- Candidate profiles that resolve in the profile map. -/
def matchingProfiles (st : IndexerState) (query : String) : List Profile :=
  (searchCandidates st.search_index (extract_search_terms query)).filterMap
    (fun pk => mapGet st.profiles pk)

/-- Descending `created_at` order, the comparator
`b.created_at.cmp(&a.created_at)` of `search_profiles`. -/
def profGe (a b : Profile) : Prop := b.created_at ≤ a.created_at

instance : DecidableRel profGe := fun a b => Int.decLe b.created_at a.created_at

instance : IsTotal Profile profGe := ⟨fun a b => le_total b.created_at a.created_at⟩

instance : IsTrans Profile profGe := ⟨fun _ _ _ h1 h2 => le_trans h2 h1⟩

/-- The matching profiles sorted newest first; `insertionSort` is stable,
as Rust's `sort_by`. -/
def sortedMatches (st : IndexerState) (query : String) : List Profile :=
  List.insertionSort profGe (matchingProfiles st query)

/-- Modulus of `usize` on the 64-bit targets this service builds for. -/
def usizeModulus : Nat := 18446744073709551616

/-- Model of `Indexer::search_profiles`: tokenize the query with
`extract_search_terms`, take the union of the buckets, resolve and sort the
profiles, slice `[start..end]` guarded against `start` out of range, and
report the pre-pagination length as `total_count`.  `page` and `per_page`
are attacker-controlled `usize` values, so `start = page * per_page` and
`start + per_page` are computed modulo 2^64, the wrapping arithmetic of a
release build (a debug build panics right at the overflowing operation).
When the wrapped end falls below `start` the source's slice expression
`matching_profiles[start..end]` panics even in release; that abort is the
`none` result.  On every non-panicking path the source returns `Ok`. -/
def search_profiles (st : IndexerState) (query : String) (page per_page : Nat) :
    Option (Except RelayError ProfileSearchResult) :=
  let sorted := sortedMatches st query
  let start := (page * per_page) % usizeModulus
  let endW := min ((start + per_page) % usizeModulus) sorted.length
  if start < sorted.length then
    if endW < start then none
    else some (.ok ⟨(sorted.drop start).take (endW - start), sorted.length, page, per_page⟩)
  else some (.ok ⟨[], sorted.length, page, per_page⟩)

/-- Deserialization of an `Event` from a JSON value, as the serde derive:
every field required with its exact type, `kind` a `u16`, `created_at` an
`i64`, unknown fields ignored. -/
def tagFromJson (j : Json) : Option (List String) := j.asArr.bind (List.mapM Json.asStr)

/-- Model of `serde_json::from_value::<Event>`. -/
def eventFromJson (j : Json) : Option Event :=
  match (j.getField "id").bind Json.asStr, (j.getField "pubkey").bind Json.asStr,
        (j.getField "created_at").bind Json.asInt, (j.getField "kind").bind Json.asInt,
        (j.getField "tags").bind Json.asArr, (j.getField "content").bind Json.asStr,
        (j.getField "sig").bind Json.asStr with
  | some id, some pubkey, some created_at, some kindI, some tagsJ, some content, some sig =>
      if 0 ≤ kindI ∧ kindI ≤ 65535 ∧
          -9223372036854775808 ≤ created_at ∧ created_at ≤ 9223372036854775807 then
        match List.mapM tagFromJson tagsJ with
        | some tags => some ⟨id, pubkey, created_at, kindI.toNat, tags, content, sig⟩
        | none => none
      else none
  | _, _, _, _, _, _, _ => none

/-- Model of `RelayClient::index_event`: dispatch by kind, ignoring kinds
other than 0 and 3. -/
def index_event (parse : String → Option Json) (now : Int) (st : IndexerState)
    (url : String) (e : Event) : IndexerState × Option RelayError :=
  match e.kind with
  | 0 => index_profile_event parse now st e url
  | 3 => index_contact_event now st e url
  | _ => (st, none)

/-- Model of `RelayClient::process_message` after the frame text has been
parsed to a JSON value: arrays of length at least 2 whose head is "EVENT"
and which carry a third element deserializable as an event reach
`index_event`; no validation of id or signature happens on this path;
everything else is a silent no-op returning `Ok`. -/
def process_message (parse : String → Option Json) (now : Int) (st : IndexerState)
    (url : String) : Json → IndexerState × Option RelayError
  | .arr (a0 :: _ :: rest) =>
      match a0.asStr with
      | some "EVENT" =>
          match rest with
          | a2 :: _ =>
              match eventFromJson a2 with
              | some e => index_event parse now st url e
              | none => (st, none)
          | [] => (st, none)
      | _ => (st, none)
  | _ => (st, none)

/-- Indexing operations, for stating invariants over every reachable
state. -/
inductive Op where
  | profile (e : Event) (src : String)
  | contact (e : Event) (src : String)

/-- Apply one operation; an operation that errors leaves the state as it
was (the source's checks precede every mutation). -/
def applyOp (parse : String → Option Json) (now : Int) (st : IndexerState) :
    Op → IndexerState
  | .profile e src => (index_profile_event parse now st e src).1
  | .contact e src => (index_contact_event now st e src).1

/-- Run a sequence of indexing operations from the initial state. -/
def runOps (parse : String → Option Json) (now : Int) (ops : List Op) : IndexerState :=
  ops.foldl (applyOp parse now) emptyIndexer

/-- Subscription filter of `filters.rs`. -/
structure Filter where
  ids : Option (List String)
  authors : Option (List String)
  kinds : Option (List Nat)
  since : Option Int
  until_ : Option Int  -- source field name `until`, a reserved token in Lean
  limit : Option Nat
  tags : Option (List (List String))
deriving DecidableEq

/-- REQ message of `filters.rs` (serde renames `message_type` to `type`). -/
structure RequestMessage where
  message_type : String
  subscription_id : String
  filters : List Filter
deriving DecidableEq

/-- Serialized JSON array of naturals. -/
def natListLit (l : List Nat) : String := "[" ++ commaJoin (l.map toString) ++ "]"

/-- Present fields of a filter in declaration order, `None` fields skipped,
per the `skip_serializing_if` attributes. -/
def filterFields (f : Filter) : List String :=
  (match f.ids with | some l => ["\"ids\":" ++ strArrLit l] | none => []) ++
  (match f.authors with | some l => ["\"authors\":" ++ strArrLit l] | none => []) ++
  (match f.kinds with | some l => ["\"kinds\":" ++ natListLit l] | none => []) ++
  (match f.since with | some n => ["\"since\":" ++ toString n] | none => []) ++
  (match f.until_ with | some n => ["\"until\":" ++ toString n] | none => []) ++
  (match f.limit with | some n => ["\"limit\":" ++ toString n] | none => []) ++
  (match f.tags with | some t => ["\"tags\":" ++ tagsLit t] | none => [])

/-- Compact serde serialization of a filter. -/
def filterJsonString (f : Filter) : String :=
  "\x7b" ++ commaJoin (filterFields f) ++ "\x7d"

/-- Compact serde serialization of a REQ message: a JSON object with the
renamed `type` key, as `serde_json::to_string` emits for the struct. -/
def requestJsonString (r : RequestMessage) : String :=
  "\x7b\"type\":" ++ strLit r.message_type ++ ",\"subscription_id\":"
    ++ strLit r.subscription_id ++ ",\"filters\":["
    ++ commaJoin (r.filters.map filterJsonString) ++ "]\x7d"

/-- The profile subscription `start_indexing` builds: kind 0, limit 1000,
subscription id "profiles". -/
def profileSubscription : RequestMessage :=
  ⟨"REQ", "profiles", [⟨none, none, some [0], none, none, some 1000, none⟩]⟩

/-- The contact subscription `start_indexing` builds: kind 3, limit 1000,
subscription id "contacts". -/
def contactSubscription : RequestMessage :=
  ⟨"REQ", "contacts", [⟨none, none, some [3], none, none, some 1000, none⟩]⟩

/-- The two frames `start_indexing` sends on entering its subscribing
phase, in send order. -/
def subscriptionFrames : List String :=
  [requestJsonString profileSubscription, requestJsonString contactSubscription]

/-- Followee pubkeys named by the p tags of a tag list, in order: element 1
of every tag whose head is the literal "p". -/
def pTargets (tags : List (List String)) : List String :=
  tags.filterMap (fun tag =>
    match tag with
    | t0 :: t1 :: _ => if t0 = "p" then some t1 else none
    | _ => none)

/-- Followee pubkeys named by a kind-3 event's p tags. -/
def pTagTargets (e : Event) : List String := pTargets e.tags

/-- The converse half of the spec's inverted-index invariant: every token
of a stored profile has a bucket containing the profile's pubkey. -/
def searchInv (st : IndexerState) : Prop :=
  ∀ pk prof, mapGet st.profiles pk = some prof →
    ∀ t ∈ prof.search_terms, ∃ b, mapGet st.search_index t = some b ∧ pk ∈ b

/-- Fixture pubkey (64 lowercase hex characters). -/
def pk1 : String := "1111111111111111111111111111111111111111111111111111111111111111"

/-- Fixture followee pubkey a. -/
def pkA : String := "aaaaaaaaaaaaaaaaaaaaaaaaaaaaaaaaaaaaaaaaaaaaaaaaaaaaaaaaaaaaaaaa"

/-- Fixture followee pubkey b. -/
def pkB : String := "bbbbbbbbbbbbbbbbbbbbbbbbbbbbbbbbbbbbbbbbbbbbbbbbbbbbbbbbbbbbbbbb"

/-- Fixture follower pubkey. -/
def pkF : String := "ffffffffffffffffffffffffffffffffffffffffffffffffffffffffffffffff"

/-- The compressed encoding of the secp256k1 generator point, a plausible
33-byte public key (66 hex characters). -/
def pkG : String := "0279be667ef9dcbbac55a06295ce870b07029bfcdb2dce28d959f2815b16f81798"

/-- Parsed empty profile content object. -/
def jEmpty : Json := Json.obj []

/-- Parsed profile content naming alice. -/
def jAlice : Json := Json.obj [("name", Json.str "alice")]

/-- Parsed profile content naming bobby. -/
def jBobby : Json := Json.obj [("name", Json.str "bobby")]

/-- Concrete stand-in for `serde_json::from_str` on the three content
strings the fixtures use; it agrees with `serde_json` on each of them and
rejects everything else. -/
def parseFixture : String → Option Json := fun s =>
  if s = "\x7b\x7d" then some jEmpty
  else if s = "\x7b\"name\":\"alice\"\x7d" then some jAlice
  else if s = "\x7b\"name\":\"bobby\"\x7d" then some jBobby
  else none

/-- Kind-0 event naming alice at created_at 2000. -/
def evAlice : Event := ⟨"ida", pk1, 2000, 0, [], "\x7b\"name\":\"alice\"\x7d", "siga"⟩

/-- Kind-0 event for the same pubkey naming bobby at the older created_at
1000. -/
def evBobby : Event := ⟨"idb", pk1, 1000, 0, [], "\x7b\"name\":\"bobby\"\x7d", "sigb"⟩

/-- Event of kind 1, rejected by the profile indexer. -/
def evKind1 : Event := ⟨"idk", pk1, 5, 1, [], "\x7b\x7d", "sigk"⟩

/-- Kind-3 snapshot of follower F naming followee A at created_at 200. -/
def evFollowA : Event := ⟨"idc1", pkF, 200, 3, [["p", pkA]], "", "sigc1"⟩

/-- Later-arriving kind-3 snapshot of F naming followee B at the older
created_at 100. -/
def evFollowB : Event := ⟨"idc2", pkF, 100, 3, [["p", pkB]], "", "sigc2"⟩

/-- State after indexing the alice event alone. -/
def stAlice : IndexerState := runOps parseFixture 9 [Op.profile evAlice "r1"]

/-- State after indexing alice then the older bobby event. -/
def stAliceBobby : IndexerState :=
  runOps parseFixture 9 [Op.profile evAlice "r1", Op.profile evBobby "r2"]

/-- State after indexing the two kind-3 snapshots of F. -/
def stContacts : IndexerState :=
  runOps parseFixture 9 [Op.contact evFollowA "r1", Op.contact evFollowB "r1"]

/-- The profile record the alice event produces. -/
def profAliceRec : Profile :=
  ⟨pk1, some "alice", none, none, none, none, none, none, none, 2000, 9, ["r1"], ["alice"]⟩

/-- The profile record the bobby event produces. -/
def profBobbyRec : Profile :=
  ⟨pk1, some "bobby", none, none, none, none, none, none, none, 1000, 9, ["r2"], ["bobby"]⟩

/-- Kind-0 event whose `sig` ("00") is not a DER signature and whose `id`
does not match the canonical hash. -/
def evCorrupt : Event := ⟨"deadbeef", pk1, 7, 0, [], "\x7b\x7d", "00"⟩

/-- The corrupt event as the JSON object a relay would deliver. -/
def evCorruptJson : Json :=
  Json.obj [("id", Json.str "deadbeef"), ("pubkey", Json.str pk1),
    ("created_at", Json.num 7), ("kind", Json.num 0), ("tags", Json.arr []),
    ("content", Json.str "\x7b\x7d"), ("sig", Json.str "00")]

/-- EVENT frame carrying the corrupt event. -/
def corruptFrame : Json :=
  Json.arr [Json.str "EVENT", Json.str "profiles", evCorruptJson]

/-- The default limits of `Config::default`. -/
def limitsDefault : LimitsConfig := ⟨16384, 1000, 10, 10, 100⟩

/-- Signature oracle that accepts: stands for a holder of the key signing
the stated id, which the secp256k1 check cannot distinguish from an honest
event since it never reads the content. -/
def sigAccept : String → String → String → Except RelayError Bool :=
  fun _ _ _ => .ok true

/-- Event whose stated id (64 zero digits) differs from its canonical
hash. -/
def evTampered : Event :=
  ⟨"0000000000000000000000000000000000000000000000000000000000000000",
   pkG, 1000, 1, [], "x", "30440011"⟩

/-- The same event with its content altered to "y" and the id left
unchanged. -/
def evTampered2 : Event :=
  ⟨"0000000000000000000000000000000000000000000000000000000000000000",
   pkG, 1000, 1, [], "y", "30440011"⟩

/-- Lookup after inserting the same key yields the inserted value. -/
theorem mapGet_mapInsert_self {κ α : Type} [DecidableEq κ]
    (m : List (κ × α)) (k : κ) (v : α) : mapGet (mapInsert m k v) k = some v := by
  induction m with
  | nil => simp [mapInsert, mapGet]
  | cons hd tl ih =>
      obtain ⟨a, w⟩ := hd
      by_cases h : a = k
      · subst h
        simp [mapInsert, mapGet]
      · simp [mapInsert, h, mapGet, ih]

/-- Lookup after inserting a different key is unchanged. -/
theorem mapGet_mapInsert_ne {κ α : Type} [DecidableEq κ]
    (m : List (κ × α)) (k k' : κ) (v : α) (h : k' ≠ k) :
    mapGet (mapInsert m k v) k' = mapGet m k' := by
  induction m with
  | nil =>
      simp only [mapInsert, mapGet]
      exact if_neg (fun hh => h hh.symm)
  | cons hd tl ih =>
      obtain ⟨a, w⟩ := hd
      by_cases h1 : a = k
      · subst h1
        simp only [mapInsert, if_pos rfl, mapGet]
        rw [if_neg (fun hh => h hh.symm), if_neg (fun hh => h hh.symm)]
      · simp only [mapInsert, if_neg h1, mapGet]
        by_cases h2 : a = k'
        · rw [if_pos h2, if_pos h2]
        · rw [if_neg h2, if_neg h2, ih]

/-- A successful lookup exposes a member of the association list. -/
theorem mapGet_mem {κ α : Type} [DecidableEq κ] :
    ∀ (m : List (κ × α)) (k : κ) (v : α), mapGet m k = some v → (k, v) ∈ m := by
  intro m
  induction m with
  | nil => intro k v h; simp [mapGet] at h
  | cons hd tl ih =>
      obtain ⟨a, w⟩ := hd
      intro k v h
      by_cases h1 : a = k
      · subst h1
        rw [mapGet, if_pos rfl] at h
        injection h with h2
        subst h2
        exact List.mem_cons_self _ _
      · rw [mapGet, if_neg h1] at h
        exact List.mem_cons_of_mem _ (ih k v h)

/-- Pushing into a term's bucket appends the pubkey to that bucket. -/
theorem bucketPush_get_self (idx : List (String × List String)) (t pk : String) :
    mapGet (bucketPush idx t pk) t = some ((mapGet idx t).getD [] ++ [pk]) := by
  unfold bucketPush
  cases h : mapGet idx t <;> simp [h, mapGet_mapInsert_self]

/-- Pushing into a term's bucket leaves other buckets unchanged. -/
theorem bucketPush_get_ne (idx : List (String × List String)) (t pk t' : String)
    (h : t' ≠ t) : mapGet (bucketPush idx t pk) t' = mapGet idx t' := by
  unfold bucketPush
  cases h2 : mapGet idx t <;> simp [mapGet_mapInsert_ne _ _ _ _ h]

/-- Bucket membership survives a push into any bucket. -/
theorem bucketPush_mem_mono (idx : List (String × List String)) (t₀ pk t x : String)
    (b : List String) (hb : mapGet idx t = some b) (hx : x ∈ b) :
    ∃ b', mapGet (bucketPush idx t₀ pk) t = some b' ∧ x ∈ b' := by
  by_cases ht : t = t₀
  · subst ht
    exact ⟨_, bucketPush_get_self idx t pk, by simp [hb, List.mem_append, hx]⟩
  · exact ⟨b, by rw [bucketPush_get_ne idx t₀ pk t ht]; exact hb, hx⟩

/-- Bucket membership survives pushing a pubkey for a whole term list. -/
theorem insertTerms_mem_mono (terms : List String) :
    ∀ (idx : List (String × List String)) (pk t x : String) (b : List String),
      mapGet idx t = some b → x ∈ b →
      ∃ b', mapGet (insertTerms idx pk terms) t = some b' ∧ x ∈ b' := by
  induction terms with
  | nil => intro idx pk t x b hb hx; exact ⟨b, hb, hx⟩
  | cons t₀ rest ih =>
      intro idx pk t x b hb hx
      obtain ⟨b', hb', hx'⟩ := bucketPush_mem_mono idx t₀ pk t x b hb hx
      have hst : insertTerms idx pk (t₀ :: rest) = insertTerms (bucketPush idx t₀ pk) pk rest := by
        simp [insertTerms]
      rw [hst]
      exact ih _ pk t x b' hb' hx'

/-- After pushing a pubkey for all its terms, each term's bucket contains
the pubkey. -/
theorem insertTerms_mem_self (terms : List String) :
    ∀ (idx : List (String × List String)) (pk t : String), t ∈ terms →
      ∃ b, mapGet (insertTerms idx pk terms) t = some b ∧ pk ∈ b := by
  induction terms with
  | nil => intro idx pk t ht; simp at ht
  | cons t₀ rest ih =>
      intro idx pk t ht
      have hst : insertTerms idx pk (t₀ :: rest) = insertTerms (bucketPush idx t₀ pk) pk rest := by
        simp [insertTerms]
      rw [hst]
      rcases List.mem_cons.mp ht with h | h
      · subst h
        exact insertTerms_mem_mono rest _ pk t pk _ (bucketPush_get_self idx t pk)
          (by simp [List.mem_append])
      · exact ih _ pk t h

/-- The initial state satisfies the invariant vacuously. -/
theorem searchInv_empty : searchInv emptyIndexer := by
  intro pk prof h
  simp [emptyIndexer, mapGet] at h

/-- Each indexing operation preserves the converse invariant. -/
theorem applyOp_searchInv (parse : String → Option Json) (now : Int)
    (st : IndexerState) (op : Op) (h : searchInv st) :
    searchInv (applyOp parse now st op) := by
  cases op with
  | profile e src =>
      by_cases hk : e.kind = 0
      · cases hp : parse e.content with
        | none =>
            have hstate : applyOp parse now st (Op.profile e src) = st := by
              simp [applyOp, index_profile_event, hk, hp]
            rw [hstate]
            exact h
        | some pd =>
            have hstate : applyOp parse now st (Op.profile e src) =
                updateStats now
                  { st with
                    profiles := mapInsert st.profiles e.pubkey
                      (decodeProfile now pd e src (extract_profile_search_terms pd)),
                    search_index := insertTerms st.search_index e.pubkey
                      (extract_profile_search_terms pd) } := by
              simp [applyOp, index_profile_event, hk, hp]
            rw [hstate]
            intro pk prof hg t ht
            dsimp only [updateStats] at hg ⊢
            by_cases hpk : pk = e.pubkey
            · subst hpk
              rw [mapGet_mapInsert_self] at hg
              injection hg with hg2
              subst hg2
              exact insertTerms_mem_self _ _ _ _ ht
            · rw [mapGet_mapInsert_ne _ _ _ _ hpk] at hg
              obtain ⟨b, hb, hpkb⟩ := h pk prof hg t ht
              exact insertTerms_mem_mono _ _ _ _ _ _ hb hpkb
      · have hstate : applyOp parse now st (Op.profile e src) = st := by
          simp [applyOp, index_profile_event, hk]
        rw [hstate]
        exact h
  | contact e src =>
      by_cases hk : e.kind = 3
      · have hstate : applyOp parse now st (Op.contact e src) =
            updateStats now
              { st with
                relationships := e.tags.foldl (upsertContact now e) st.relationships } := by
          simp [applyOp, index_contact_event, hk]
        rw [hstate]
        intro pk prof hg t ht
        dsimp only [updateStats] at hg ⊢
        exact h pk prof hg t ht
      · have hstate : applyOp parse now st (Op.contact e src) = st := by
          simp [applyOp, index_contact_event, hk]
        rw [hstate]
        exact h

/-- Every state reachable by indexing operations satisfies the converse
invariant. -/
theorem runOps_searchInv (parse : String → Option Json) (now : Int) (ops : List Op) :
    searchInv (runOps parse now ops) := by
  have gen : ∀ (l : List Op) (st : IndexerState), searchInv st →
      searchInv (List.foldl (applyOp parse now) st l) := by
    intro l
    induction l with
    | nil => intro st hst; exact hst
    | cons op rest ih => intro st hst; exact ih _ (applyOp_searchInv parse now st op hst)
  exact gen ops emptyIndexer searchInv_empty

/-- Appending a fresh pubkey preserves lack of duplicates. -/
theorem addUnique_nodup (acc : List String) (pk : String) (h : acc.Nodup) :
    (addUnique acc pk).Nodup := by
  by_cases hpk : pk ∈ acc
  · simpa [addUnique, hpk] using h
  · rw [addUnique, if_neg hpk]
    exact h.append (List.nodup_singleton pk)
      (by intro x hx hx2; simp at hx2; subst hx2; exact hpk hx)

/-- Membership after `addUnique`. -/
theorem addUnique_mem (acc : List String) (pk x : String) :
    x ∈ addUnique acc pk ↔ x ∈ acc ∨ x = pk := by
  by_cases hpk : pk ∈ acc
  · simp only [addUnique, if_pos hpk]
    exact ⟨Or.inl, fun h => h.elim id (fun hx => hx ▸ hpk)⟩
  · simp [addUnique, if_neg hpk, List.mem_append]

/-- Folding `addUnique` preserves lack of duplicates. -/
theorem foldl_addUnique_nodup (pks : List String) :
    ∀ acc : List String, acc.Nodup → (pks.foldl addUnique acc).Nodup := by
  induction pks with
  | nil => intro acc h; exact h
  | cons p rest ih => intro acc h; exact ih _ (addUnique_nodup acc p h)

/-- Membership after folding `addUnique` is the union of the accumulator
and the folded list. -/
theorem foldl_addUnique_mem (pks : List String) :
    ∀ (acc : List String) (x : String),
      x ∈ pks.foldl addUnique acc ↔ x ∈ acc ∨ x ∈ pks := by
  induction pks with
  | nil => intro acc x; simp
  | cons p rest ih =>
      intro acc x
      rw [List.foldl_cons, ih, addUnique_mem]
      simp [List.mem_cons]
      tauto

/-- One term-lookup step preserves lack of duplicates. -/
theorem termLookup_nodup (idx : List (String × List String)) (acc : List String)
    (t : String) (h : acc.Nodup) : (termLookup idx acc t).Nodup := by
  unfold termLookup
  cases hb : mapGet idx t
  · exact h
  · exact foldl_addUnique_nodup _ acc h

/-- Membership after one term-lookup step. -/
theorem termLookup_mem (idx : List (String × List String)) (acc : List String)
    (t x : String) :
    x ∈ termLookup idx acc t ↔ x ∈ acc ∨ ∃ b, mapGet idx t = some b ∧ x ∈ b := by
  unfold termLookup
  cases hb : mapGet idx t
  · simp [hb]
  · simp [hb, foldl_addUnique_mem]

/-- The candidate list of a search has no duplicates: a profile matching
any query token appears at most once. -/
theorem searchCandidates_nodup (idx : List (String × List String))
    (terms : List String) : (searchCandidates idx terms).Nodup := by
  have gen : ∀ (l : List String) (acc : List String), acc.Nodup →
      (l.foldl (termLookup idx) acc).Nodup := by
    intro l
    induction l with
    | nil => intro acc h; exact h
    | cons t rest ih => intro acc h; exact ih _ (termLookup_nodup idx acc t h)
  exact gen terms [] List.nodup_nil

/-- The candidate list is exactly the union of the buckets of the query
terms. -/
theorem searchCandidates_mem (idx : List (String × List String))
    (terms : List String) (x : String) :
    x ∈ searchCandidates idx terms ↔
      ∃ t ∈ terms, ∃ b, mapGet idx t = some b ∧ x ∈ b := by
  have gen : ∀ (l : List String) (acc : List String),
      x ∈ l.foldl (termLookup idx) acc ↔
        x ∈ acc ∨ ∃ t ∈ l, ∃ b, mapGet idx t = some b ∧ x ∈ b := by
    intro l
    induction l with
    | nil => intro acc; simp
    | cons t rest ih =>
        intro acc
        rw [List.foldl_cons, ih, termLookup_mem]
        simp only [List.mem_cons]
        constructor
        · rintro ((hx | ⟨b, hb, hxb⟩) | ⟨t', ht', b, hb, hxb⟩)
          · exact Or.inl hx
          · exact Or.inr ⟨t, Or.inl rfl, b, hb, hxb⟩
          · exact Or.inr ⟨t', Or.inr ht', b, hb, hxb⟩
        · rintro (hx | ⟨t', ht' | ht', b, hb, hxb⟩)
          · exact Or.inl (Or.inl hx)
          · exact Or.inl (Or.inr ⟨b, ht' ▸ hb, hxb⟩)
          · exact Or.inr ⟨t', ht', b, hb, hxb⟩
  have h := gen terms []
  simpa [searchCandidates] using h

/-- `filterMap` keeps the length when the function succeeds everywhere. -/
theorem length_filterMap_of_isSome {α β : Type} (f : α → Option β) :
    ∀ l : List α, (∀ x ∈ l, (f x).isSome = true) →
      (l.filterMap f).length = l.length := by
  intro l
  induction l with
  | nil => intro _; rfl
  | cons x rest ih =>
      intro h
      cases hf : f x with
      | none => exact absurd (h x (List.mem_cons_self x rest)) (by simp [hf])
      | some y =>
          rw [List.filterMap_cons, hf]
          simp only [List.length_cons]
          rw [ih (fun z hz => h z (List.mem_cons_of_mem x hz))]

/-- A list's take is unchanged when the count is clipped at its length. -/
theorem take_length_clip {α : Type} (l : List α) (a : Nat) (h : l.length ≤ a) :
    l.take a = l := by
  induction l generalizing a with
  | nil => simp
  | cons x xs ih =>
      cases a with
      | zero => simp at h
      | succ a =>
          simp only [List.take_succ_cons]
          rw [ih a (Nat.le_of_succ_le_succ h)]

/-- The source's slice width `min (start + per) len - start` takes the same
elements as an unclipped take of `per` once the tail at `start` is in
hand. -/
theorem take_clip {α : Type} (l : List α) (start per : Nat) :
    (l.drop start).take (min (start + per) l.length - start) =
      (l.drop start).take per := by
  have hlen : (l.drop start).length = l.length - start := List.length_drop start l
  by_cases hc : start + per ≤ l.length
  · rw [min_eq_left hc, Nat.add_sub_cancel_left]
  · rw [min_eq_right (le_of_not_le hc)]
    have h1 : (l.drop start).take (l.length - start) = l.drop start := by
      rw [← hlen]
      exact List.take_length _
    have h2 : (l.drop start).take per = l.drop start := by
      apply take_length_clip
      rw [hlen]
      omega
    rw [h1, h2]

/-- The p targets of a tag list split at the head tag. -/
theorem pTargets_cons (tag : List String) (rest : List (List String)) :
    pTargets (tag :: rest) = pTargets [tag] ++ pTargets rest := by
  cases tag with
  | nil => simp [pTargets]
  | cons t0 ts =>
      cases ts with
      | nil => simp [pTargets]
      | cons t1 ts2 =>
          by_cases hp : t0 = "p" <;> simp [pTargets, hp]

/-- One contact upsert step leaves edges at other keys unchanged. -/
theorem upsert_preserve_step (now : Int) (e : Event)
    (rels : List ((String × String) × Contact)) (key : String × String)
    (c : Contact) (tag : List String) (h : mapGet rels key = some c)
    (hk : key.1 ≠ e.pubkey ∨ key.2 ∉ pTargets [tag]) :
    mapGet (upsertContact now e rels tag) key = some c := by
  cases tag with
  | nil => simpa [upsertContact] using h
  | cons t0 ts =>
      cases ts with
      | nil => simpa [upsertContact] using h
      | cons t1 ts2 =>
          by_cases hp : t0 = "p"
          · subst hp
            have hne : key ≠ (e.pubkey, t1) := by
              intro heq
              rcases hk with h1 | h2
              · exact h1 (congrArg Prod.fst heq)
              · exact h2 (by simp [pTargets, heq])
            have hstep : upsertContact now e rels ("p" :: t1 :: ts2) =
                mapInsert rels (e.pubkey, t1) (contactOfTag now e t1 ts2) := by
              simp [upsertContact]
            rw [hstep, mapGet_mapInsert_ne _ _ _ _ hne]
            exact h
          · simpa [upsertContact, hp] using h

/-- One contact upsert step preserves a well-formed edge at the key it may
touch, because any overwrite installs a contact with the same shape. -/
theorem upsert_good_step (now : Int) (e : Event)
    (rels : List ((String × String) × Contact)) (t1 : String) (tag : List String)
    (h : ∃ c, mapGet rels (e.pubkey, t1) = some c ∧ c.created_at = e.created_at ∧
      c.follower_pubkey = e.pubkey ∧ c.following_pubkey = t1) :
    ∃ c, mapGet (upsertContact now e rels tag) (e.pubkey, t1) = some c ∧
      c.created_at = e.created_at ∧ c.follower_pubkey = e.pubkey ∧
      c.following_pubkey = t1 := by
  cases tag with
  | nil => simpa [upsertContact] using h
  | cons t0 ts =>
      cases ts with
      | nil => simpa [upsertContact] using h
      | cons t1' ts2 =>
          by_cases hp : t0 = "p"
          · subst hp
            have hstep : upsertContact now e rels ("p" :: t1' :: ts2) =
                mapInsert rels (e.pubkey, t1') (contactOfTag now e t1' ts2) := by
              simp [upsertContact]
            rw [hstep]
            by_cases ht : t1 = t1'
            · subst ht
              exact ⟨contactOfTag now e t1 ts2, mapGet_mapInsert_self _ _ _,
                rfl, rfl, rfl⟩
            · obtain ⟨c, hc, hprops⟩ := h
              refine ⟨c, ?_, hprops⟩
              rw [mapGet_mapInsert_ne _ _ _ _
                (fun heq => ht (congrArg Prod.snd heq))]
              exact hc
          · simpa [upsertContact, hp] using h

/-- One contact upsert step installs a well-formed edge for the tag's own
target. -/
theorem upsert_establish_step (now : Int) (e : Event)
    (rels : List ((String × String) × Contact)) (t1 : String) (tag : List String)
    (h : t1 ∈ pTargets [tag]) :
    ∃ c, mapGet (upsertContact now e rels tag) (e.pubkey, t1) = some c ∧
      c.created_at = e.created_at ∧ c.follower_pubkey = e.pubkey ∧
      c.following_pubkey = t1 := by
  cases tag with
  | nil => simp [pTargets] at h
  | cons t0 ts =>
      cases ts with
      | nil => simp [pTargets] at h
      | cons t1' ts2 =>
          by_cases hp : t0 = "p"
          · subst hp
            have ht : t1 = t1' := by simpa [pTargets] using h
            subst ht
            have hstep : upsertContact now e rels ("p" :: t1 :: ts2) =
                mapInsert rels (e.pubkey, t1) (contactOfTag now e t1 ts2) := by
              simp [upsertContact]
            rw [hstep]
            exact ⟨contactOfTag now e t1 ts2, mapGet_mapInsert_self _ _ _,
              rfl, rfl, rfl⟩
          · simp [pTargets, hp] at h

/-- Folding the contact upserts leaves every edge at an untouched key
unchanged. -/
theorem foldl_upsert_preserve (now : Int) (e : Event) (tags : List (List String)) :
    ∀ (rels : List ((String × String) × Contact)) (key : String × String) (c : Contact),
      mapGet rels key = some c → (key.1 ≠ e.pubkey ∨ key.2 ∉ pTargets tags) →
      mapGet (tags.foldl (upsertContact now e) rels) key = some c := by
  induction tags with
  | nil => intro rels key c h _; simpa using h
  | cons tag rest ih =>
      intro rels key c h hk
      rw [List.foldl_cons]
      have hsplit : key.1 ≠ e.pubkey ∨
          (key.2 ∉ pTargets [tag] ∧ key.2 ∉ pTargets rest) := by
        rcases hk with h1 | h2
        · exact Or.inl h1
        · rw [pTargets_cons] at h2
          exact Or.inr ⟨fun hm => h2 (List.mem_append_left _ hm),
            fun hm => h2 (List.mem_append_right _ hm)⟩
      rcases hsplit with h1 | ⟨h2a, h2b⟩
      · exact ih _ key c (upsert_preserve_step now e rels key c tag h (Or.inl h1)) (Or.inl h1)
      · exact ih _ key c (upsert_preserve_step now e rels key c tag h (Or.inr h2a)) (Or.inr h2b)

/-- Folding the contact upserts yields a well-formed edge for every p
target of the tag list. -/
theorem foldl_upsert_target (now : Int) (e : Event) (tags : List (List String)) :
    ∀ (rels : List ((String × String) × Contact)) (t1 : String),
      (t1 ∈ pTargets tags ∨ ∃ c, mapGet rels (e.pubkey, t1) = some c ∧
        c.created_at = e.created_at ∧ c.follower_pubkey = e.pubkey ∧
        c.following_pubkey = t1) →
      ∃ c, mapGet (tags.foldl (upsertContact now e) rels) (e.pubkey, t1) = some c ∧
        c.created_at = e.created_at ∧ c.follower_pubkey = e.pubkey ∧
        c.following_pubkey = t1 := by
  induction tags with
  | nil =>
      intro rels t1 h
      rcases h with h | h
      · simp [pTargets] at h
      · simpa using h
  | cons tag rest ih =>
      intro rels t1 h
      rw [List.foldl_cons]
      apply ih
      rcases h with hmem | hgood
      · rw [pTargets_cons] at hmem
        rcases List.mem_append.mp hmem with h1 | h2
        · exact Or.inr (upsert_establish_step now e rels t1 tag h1)
        · exact Or.inl h2
      · exact Or.inr (upsert_good_step now e rels t1 tag hgood)

/-- C1 (amended): `index_profile_event` replaces the stored profile for the
event's pubkey unconditionally — for every prior state, any kind-0 event
with parseable content overwrites the record, and the stored `created_at`
becomes the incoming event's, with no comparison against the existing
record (so also when the incoming `created_at` is strictly smaller). -/
theorem c1_profile_replace_unconditional
    (parse : String → Option Json) (now : Int) (st : IndexerState) (e : Event)
    (src : String) (j : Json) (h0 : e.kind = 0) (hp : parse e.content = some j) :
    (index_profile_event parse now st e src).2 = none ∧
    mapGet (index_profile_event parse now st e src).1.profiles e.pubkey =
      some (decodeProfile now j e src (extract_profile_search_terms j)) ∧
    (decodeProfile now j e src (extract_profile_search_terms j)).created_at =
      e.created_at := by
  have hstate : index_profile_event parse now st e src =
      (updateStats now
        { st with
          profiles := mapInsert st.profiles e.pubkey
            (decodeProfile now j e src (extract_profile_search_terms j)),
          search_index := insertTerms st.search_index e.pubkey
            (extract_profile_search_terms j) }, none) := by
    simp [index_profile_event, h0, hp]
  rw [hstate]
  refine ⟨rfl, ?_, rfl⟩
  dsimp only [updateStats]
  exact mapGet_mapInsert_self _ _ _

/-- Witness for C1's amended theorem at the bobby event against the state
already holding the newer alice profile. -/
theorem c1_profile_replace_unconditional_witness :
    evBobby.kind = 0 ∧ parseFixture evBobby.content = some jBobby ∧
    ((index_profile_event parseFixture 9 stAlice evBobby "r2").2 = none ∧
     mapGet (index_profile_event parseFixture 9 stAlice evBobby "r2").1.profiles
       evBobby.pubkey =
       some (decodeProfile 9 jBobby evBobby "r2" (extract_profile_search_terms jBobby)) ∧
     (decodeProfile 9 jBobby evBobby "r2" (extract_profile_search_terms jBobby)).created_at =
       evBobby.created_at) :=
  ⟨rfl, rfl,
    c1_profile_replace_unconditional parseFixture 9 stAlice evBobby "r2" jBobby rfl rfl⟩

/-- C1 counterexample: with a profile stored at `created_at` 2000, an
incoming kind-0 event for the same pubkey at the strictly smaller
`created_at` 1000 is not a no-op — the stored profile's `created_at`
becomes 1000. -/
theorem c1_counterexample :
    (mapGet stAlice.profiles pk1).map Profile.created_at = some 2000 ∧
    (mapGet stAliceBobby.profiles pk1).map Profile.created_at = some 1000 ∧
    (1000 : Int) ≠ 2000 :=
  ⟨by decide, by decide, by decide⟩

/-- C2 (amended): in every state reachable by indexing operations, every
token in a stored profile's `search_terms` has an inverted-index bucket
containing that profile's pubkey (the converse direction of the claimed
invariant; the forward direction fails, see the counterexample). -/
theorem c2_tokens_have_buckets
    (parse : String → Option Json) (now : Int) (ops : List Op) (pk : String)
    (prof : Profile) (hp : mapGet (runOps parse now ops).profiles pk = some prof)
    (t : String) (ht : t ∈ prof.search_terms) :
    ∃ b, mapGet (runOps parse now ops).search_index t = some b ∧ pk ∈ b :=
  runOps_searchInv parse now ops pk prof hp t ht

/-- Witness for C2's amended theorem after one profile event. -/
theorem c2_tokens_have_buckets_witness :
    mapGet (runOps parseFixture 9 [Op.profile evAlice "r1"]).profiles pk1 =
      some profAliceRec ∧
    "alice" ∈ profAliceRec.search_terms ∧
    (∃ b, mapGet (runOps parseFixture 9 [Op.profile evAlice "r1"]).search_index
      "alice" = some b ∧ pk1 ∈ b) :=
  ⟨by decide, by decide,
    c2_tokens_have_buckets parseFixture 9 [Op.profile evAlice "r1"] pk1 profAliceRec
      (by decide) "alice" (by decide)⟩

/-- C2 counterexample: after re-indexing the pubkey with different terms,
the bucket of the stale token "alice" still contains the pubkey although
the currently stored profile's `search_terms` no longer contain "alice" —
the forward direction of the claimed invariant fails. -/
theorem c2_counterexample :
    mapGet stAliceBobby.search_index "alice" = some [pk1] ∧
    mapGet stAliceBobby.profiles pk1 = some profBobbyRec ∧
    "alice" ∉ profBobbyRec.search_terms :=
  ⟨by decide, by decide, by decide⟩

/-- C3 (amended): indexing a kind-3 event performs one upsert per p tag
keyed by (follower, followee) with the event's `created_at`; it never
compares timestamps and never deletes: every stored edge at any other key
survives, in particular the same follower's edges to followees the event
does not name. -/
theorem c3_contact_upsert_no_deletion (now : Int) (st : IndexerState) (e : Event)
    (src : String) (h3 : e.kind = 3) :
    (index_contact_event now st e src).2 = none ∧
    (∀ key c, mapGet st.relationships key = some c →
      key.1 ≠ e.pubkey ∨ key.2 ∉ pTagTargets e →
      mapGet (index_contact_event now st e src).1.relationships key = some c) ∧
    (∀ t1 ∈ pTagTargets e,
      ∃ c, mapGet (index_contact_event now st e src).1.relationships
        (e.pubkey, t1) = some c ∧ c.created_at = e.created_at ∧
        c.follower_pubkey = e.pubkey ∧ c.following_pubkey = t1) := by
  have hstate : index_contact_event now st e src =
      (updateStats now
        { st with
          relationships := e.tags.foldl (upsertContact now e) st.relationships },
       none) := by
    simp [index_contact_event, h3]
  rw [hstate]
  refine ⟨rfl, ?_, ?_⟩
  · intro key c h hk
    dsimp only [updateStats]
    exact foldl_upsert_preserve now e e.tags st.relationships key c h hk
  · intro t1 ht
    dsimp only [updateStats]
    exact foldl_upsert_target now e e.tags st.relationships t1 (Or.inl ht)

/-- Witness for C3's amended theorem at the first follow snapshot. -/
theorem c3_contact_upsert_no_deletion_witness :
    evFollowA.kind = 3 ∧
    ((index_contact_event 9 emptyIndexer evFollowA "r1").2 = none ∧
     (∀ key c, mapGet emptyIndexer.relationships key = some c →
       key.1 ≠ evFollowA.pubkey ∨ key.2 ∉ pTagTargets evFollowA →
       mapGet (index_contact_event 9 emptyIndexer evFollowA "r1").1.relationships
         key = some c) ∧
     (∀ t1 ∈ pTagTargets evFollowA,
       ∃ c, mapGet (index_contact_event 9 emptyIndexer evFollowA "r1").1.relationships
         (evFollowA.pubkey, t1) = some c ∧ c.created_at = evFollowA.created_at ∧
         c.follower_pubkey = evFollowA.pubkey ∧ c.following_pubkey = t1)) :=
  ⟨rfl, c3_contact_upsert_no_deletion 9 emptyIndexer evFollowA "r1" rfl⟩

/-- C3 counterexample: after F's snapshot at `created_at` 200 naming A, a
kind-3 event from F at the strictly smaller `created_at` 100 naming B is
not dropped — the edge (F, B) appears with `created_at` 100 — and the old
edge (F, A) with `created_at` 200 is not deleted, so F's stored edges do
not share a single `created_at`. -/
theorem c3_counterexample :
    (mapGet stContacts.relationships (pkF, pkA)).map Contact.created_at = some 200 ∧
    (mapGet stContacts.relationships (pkF, pkB)).map Contact.created_at = some 100 ∧
    (100 : Int) ≠ 200 :=
  ⟨by decide, by decide, by decide⟩

/-- C4 (amended): `process_message` hands EVENT frames straight to the
indexer with no validation — for any event whose JSON deserializes, a kind
0 and parseable content suffice for the profile to be stored and the stats
to be updated, with no constraint whatsoever on `sig` or `id`. -/
theorem c4_event_indexed_without_validation
    (parse : String → Option Json) (now : Int) (st : IndexerState) (url : String)
    (sub jv : Json) (rest : List Json) (e : Event) (j : Json)
    (hj : eventFromJson jv = some e) (h0 : e.kind = 0)
    (hp : parse e.content = some j) :
    (process_message parse now st url
      (Json.arr (Json.str "EVENT" :: sub :: jv :: rest))).2 = none ∧
    mapGet (process_message parse now st url
      (Json.arr (Json.str "EVENT" :: sub :: jv :: rest))).1.profiles e.pubkey =
      some (decodeProfile now j e url (extract_profile_search_terms j)) ∧
    (process_message parse now st url
      (Json.arr (Json.str "EVENT" :: sub :: jv :: rest))).1.stats.total_profiles =
      (process_message parse now st url
        (Json.arr (Json.str "EVENT" :: sub :: jv :: rest))).1.profiles.length ∧
    (process_message parse now st url
      (Json.arr (Json.str "EVENT" :: sub :: jv :: rest))).1.stats.last_indexed =
      some now := by
  have hdispatch : process_message parse now st url
      (Json.arr (Json.str "EVENT" :: sub :: jv :: rest)) =
      index_profile_event parse now st e url := by
    simp [process_message, Json.asStr, hj, index_event, h0]
  have hstate : index_profile_event parse now st e url =
      (updateStats now
        { st with
          profiles := mapInsert st.profiles e.pubkey
            (decodeProfile now j e url (extract_profile_search_terms j)),
          search_index := insertTerms st.search_index e.pubkey
            (extract_profile_search_terms j) }, none) := by
    simp [index_profile_event, h0, hp]
  rw [hdispatch, hstate]
  refine ⟨rfl, ?_, rfl, rfl⟩
  dsimp only [updateStats]
  exact mapGet_mapInsert_self _ _ _

/-- Witness for C4's amended theorem at the corrupt-signature frame. -/
theorem c4_event_indexed_without_validation_witness :
    eventFromJson evCorruptJson = some evCorrupt ∧ evCorrupt.kind = 0 ∧
    parseFixture evCorrupt.content = some jEmpty ∧
    ((process_message parseFixture 7 emptyIndexer "wss://relay.example"
      (Json.arr (Json.str "EVENT" :: Json.str "profiles" :: evCorruptJson :: []))).2 = none ∧
     mapGet (process_message parseFixture 7 emptyIndexer "wss://relay.example"
      (Json.arr (Json.str "EVENT" :: Json.str "profiles" :: evCorruptJson :: []))).1.profiles
       evCorrupt.pubkey =
       some (decodeProfile 7 jEmpty evCorrupt "wss://relay.example"
         (extract_profile_search_terms jEmpty)) ∧
     (process_message parseFixture 7 emptyIndexer "wss://relay.example"
      (Json.arr (Json.str "EVENT" :: Json.str "profiles" :: evCorruptJson :: []))).1.stats.total_profiles =
       (process_message parseFixture 7 emptyIndexer "wss://relay.example"
        (Json.arr (Json.str "EVENT" :: Json.str "profiles" :: evCorruptJson :: []))).1.profiles.length ∧
     (process_message parseFixture 7 emptyIndexer "wss://relay.example"
      (Json.arr (Json.str "EVENT" :: Json.str "profiles" :: evCorruptJson :: []))).1.stats.last_indexed =
       some 7) :=
  ⟨by decide, rfl, rfl,
    c4_event_indexed_without_validation parseFixture 7 emptyIndexer
      "wss://relay.example" (Json.str "profiles") evCorruptJson [] evCorrupt jEmpty
      (by decide) rfl rfl⟩

/-- C4 counterexample: an EVENT frame whose event has a corrupted signature
("00" is no DER signature) and an id that does not match the canonical
hash is still indexed: a profile is stored and the stats counters change
from their initial values. -/
theorem c4_counterexample :
    calculate_id evCorrupt ≠ evCorrupt.id ∧
    (process_message parseFixture 7 emptyIndexer "wss://relay.example"
      corruptFrame).2 = none ∧
    (mapGet (process_message parseFixture 7 emptyIndexer "wss://relay.example"
      corruptFrame).1.profiles pk1).isSome = true ∧
    (process_message parseFixture 7 emptyIndexer "wss://relay.example"
      corruptFrame).1.stats.total_profiles = 1 ∧
    emptyIndexer.stats.total_profiles = 0 :=
  ⟨by decide, by decide, by decide, by decide, by decide⟩

/-- C5 (amended): `validate` inspects only the serialized size, the
`created_at` window and the signature over the stated `pubkey`, `id` and
`sig`; it never recomputes the canonical id, so two events agreeing on
those inputs — in particular differing in `content` — validate
identically. -/
theorem c5_validate_ignores_content
    (vs : String → String → String → Except RelayError Bool) (now : Int)
    (limits : LimitsConfig) (e1 e2 : Event) (hpk : e1.pubkey = e2.pubkey)
    (hid : e1.id = e2.id) (hsig : e1.sig = e2.sig)
    (hca : e1.created_at = e2.created_at)
    (hsz : (strBytes (eventJsonString e1)).length =
      (strBytes (eventJsonString e2)).length) :
    validate vs now limits e1 = validate vs now limits e2 := by
  unfold validate
  rw [hsz, hca, hpk, hid, hsig]

/-- Witness for C5's amended theorem on the two tampered events differing
only in content. -/
theorem c5_validate_ignores_content_witness :
    evTampered.pubkey = evTampered2.pubkey ∧ evTampered.id = evTampered2.id ∧
    evTampered.sig = evTampered2.sig ∧
    evTampered.created_at = evTampered2.created_at ∧
    (strBytes (eventJsonString evTampered)).length =
      (strBytes (eventJsonString evTampered2)).length ∧
    validate sigAccept 1000 limitsDefault evTampered =
      validate sigAccept 1000 limitsDefault evTampered2 :=
  ⟨rfl, rfl, rfl, rfl, by decide,
    c5_validate_ignores_content sigAccept 1000 limitsDefault evTampered evTampered2
      rfl rfl rfl rfl (by decide)⟩

/-- C5 counterexample: an event whose recomputed canonical id differs from
its stated id passes `validate` (under a signature oracle that accepts,
which a keyholder signing the stated id realizes); altering the content
with the id unchanged does not make validation fail. -/
theorem c5_counterexample :
    validate sigAccept 1000 limitsDefault evTampered = .ok () ∧
    calculate_id evTampered ≠ evTampered.id ∧
    validate sigAccept 1000 limitsDefault evTampered2 = .ok () ∧
    evTampered2.id = evTampered.id ∧ evTampered2.content ≠ evTampered.content :=
  ⟨rfl, by decide, rfl, rfl, by decide⟩

/-- C6 (code bug): the identity codec does not round-trip — `npub_to_hex`
is a stub returning `Ok("")` for every input, so hex → bech32 → hex
collapses to the empty string, and invalid inputs to either direction
produce no typed error (`hex_to_npub` of non-hex input silently encodes
the empty byte string). -/
theorem c6_codec_stub :
    npub_to_hex (hex_to_npub pk1) = .ok "" ∧
    "" ≠ pk1 ∧
    npub_to_hex "npub1notbech32data" = .ok "" ∧
    hex_to_npub "zz" = "npub106246s" :=
  ⟨rfl, by decide, rfl, by decide⟩

/-- C7 (amended): in any state whose buckets only hold stored pubkeys (an
invariant of reachable states), search tokenizes the query with
`extract_search_terms` (the indexing tokenizer), the candidate set is the
duplicate-free union of the buckets of the query tokens, `total_count` is
the size of the full candidate set, and — for representable `usize`
parameters whose end computation does not itself overflow — the result
page is the slice of the `created_at`-descending sorted list at the offset
`page * per_page` computed in `usize`, i.e. reduced modulo 2^64, not the
mathematical product. -/
theorem c7_search_spec (st : IndexerState) (query : String) (page per_page : Nat)
    (hres : ∀ p ∈ st.search_index, ∀ pk ∈ p.2,
      (mapGet st.profiles pk).isSome = true)
    (_hpage : page < usizeModulus) (_hper : per_page < usizeModulus)
    (hsum : (page * per_page) % usizeModulus + per_page < usizeModulus) :
    (searchCandidates st.search_index (extract_search_terms query)).Nodup ∧
    (∀ pk, pk ∈ searchCandidates st.search_index (extract_search_terms query) ↔
      ∃ t ∈ extract_search_terms query,
        ∃ b, mapGet st.search_index t = some b ∧ pk ∈ b) ∧
    search_profiles st query page per_page = some (Except.ok
      ⟨((sortedMatches st query).drop ((page * per_page) % usizeModulus)).take per_page,
       (searchCandidates st.search_index (extract_search_terms query)).length,
       page, per_page⟩) ∧
    List.Sorted profGe
      (((sortedMatches st query).drop ((page * per_page) % usizeModulus)).take per_page) := by
  have hall : ∀ pk ∈ searchCandidates st.search_index (extract_search_terms query),
      (mapGet st.profiles pk).isSome = true := by
    intro pk hpk
    obtain ⟨t, _, b, hb, hpkb⟩ := (searchCandidates_mem _ _ pk).mp hpk
    exact hres (t, b) (mapGet_mem _ _ _ hb) pk hpkb
  have h1 : (sortedMatches st query).length = (matchingProfiles st query).length :=
    (List.perm_insertionSort profGe _).length_eq
  have h2 : (matchingProfiles st query).length =
      (searchCandidates st.search_index (extract_search_terms query)).length :=
    length_filterMap_of_isSome _ _ hall
  have hsorted : List.Sorted profGe (sortedMatches st query) :=
    List.sorted_insertionSort profGe (matchingProfiles st query)
  have hmod : ((page * per_page) % usizeModulus + per_page) % usizeModulus =
      (page * per_page) % usizeModulus + per_page := Nat.mod_eq_of_lt hsum
  refine ⟨searchCandidates_nodup _ _, fun pk => searchCandidates_mem _ _ pk, ?_, ?_⟩
  · by_cases hlt : (page * per_page) % usizeModulus < (sortedMatches st query).length
    · have hge : ¬ (min ((page * per_page) % usizeModulus + per_page)
          (sortedMatches st query).length < (page * per_page) % usizeModulus) := by
        rcases Nat.le_total ((page * per_page) % usizeModulus + per_page)
            (sortedMatches st query).length with hc | hc
        · rw [min_eq_left hc]; omega
        · rw [min_eq_right hc]; omega
      have hprog : search_profiles st query page per_page = some (Except.ok
          ⟨((sortedMatches st query).drop ((page * per_page) % usizeModulus)).take
             (min ((page * per_page) % usizeModulus + per_page)
               (sortedMatches st query).length - (page * per_page) % usizeModulus),
           (sortedMatches st query).length, page, per_page⟩) := by
        simp only [search_profiles, hmod]
        rw [if_pos hlt, if_neg hge]
      rw [hprog, take_clip, h1, h2]
    · have hdrop : (sortedMatches st query).drop ((page * per_page) % usizeModulus) = [] :=
        List.drop_eq_nil_of_le (le_of_not_lt hlt)
      have hprog : search_profiles st query page per_page = some (Except.ok
          ⟨[], (sortedMatches st query).length, page, per_page⟩) := by
        simp only [search_profiles, hmod]
        rw [if_neg hlt]
      rw [hprog, hdrop, List.take_nil, h1, h2]
  · exact List.Pairwise.sublist
      ((List.take_sublist _ _).trans (List.drop_sublist _ _)) hsorted

/-- Witness for C7 in the state holding the alice profile, querying
"alice" at page 0, page size 20. -/
theorem c7_search_spec_witness :
    (∀ p ∈ stAlice.search_index, ∀ pk ∈ p.2,
      (mapGet stAlice.profiles pk).isSome = true) ∧
    0 < usizeModulus ∧ 20 < usizeModulus ∧
    (0 * 20) % usizeModulus + 20 < usizeModulus ∧
    ((searchCandidates stAlice.search_index (extract_search_terms "alice")).Nodup ∧
     (∀ pk, pk ∈ searchCandidates stAlice.search_index (extract_search_terms "alice") ↔
       ∃ t ∈ extract_search_terms "alice",
         ∃ b, mapGet stAlice.search_index t = some b ∧ pk ∈ b) ∧
     search_profiles stAlice "alice" 0 20 = some (Except.ok
       ⟨((sortedMatches stAlice "alice").drop ((0 * 20) % usizeModulus)).take 20,
        (searchCandidates stAlice.search_index (extract_search_terms "alice")).length,
        0, 20⟩) ∧
     List.Sorted profGe
       (((sortedMatches stAlice "alice").drop ((0 * 20) % usizeModulus)).take 20)) :=
  ⟨by decide, by decide, by decide, by decide,
    c7_search_spec stAlice "alice" 0 20 (by decide) (by decide) (by decide) (by decide)⟩

/-- C7 counterexample: at the representable parameters
page = per_page = 2^32 against one stored match, the program slices at the
wrapped offset (2^32 * 2^32) mod 2^64 = 0 and returns the full non-empty
page, while the slice at the mathematical offset page * per_page the claim
describes is empty. -/
theorem c7_counterexample :
    search_profiles stAlice "alice" 4294967296 4294967296 = some (Except.ok
      ⟨[profAliceRec], 1, 4294967296, 4294967296⟩) ∧
    ((sortedMatches stAlice "alice").drop (4294967296 * 4294967296)).take 4294967296 = [] ∧
    ([profAliceRec] : List Profile) ≠ [] :=
  ⟨by rfl, by decide, by decide⟩

/-- C8 (amended): on entering the subscribing phase the client sends
exactly two REQ frames — kind 0, limit 1000, id "profiles" and kind 3,
limit 1000, id "contacts" — but each frame is the serde object
serialization `("type", "subscription_id", "filters")`, not an array. -/
theorem c8_subscription_frames :
    subscriptionFrames =
      ["\x7b\"type\":\"REQ\",\"subscription_id\":\"profiles\",\"filters\":[\x7b\"kinds\":[0],\"limit\":1000\x7d]\x7d",
       "\x7b\"type\":\"REQ\",\"subscription_id\":\"contacts\",\"filters\":[\x7b\"kinds\":[3],\"limit\":1000\x7d]\x7d"] ∧
    profileSubscription.message_type = "REQ" ∧
    profileSubscription.subscription_id = "profiles" ∧
    profileSubscription.filters = [⟨none, none, some [0], none, none, some 1000, none⟩] ∧
    contactSubscription.message_type = "REQ" ∧
    contactSubscription.subscription_id = "contacts" ∧
    contactSubscription.filters = [⟨none, none, some [3], none, none, some 1000, none⟩] :=
  ⟨by decide, rfl, rfl, rfl, rfl, rfl, rfl⟩

/-- C8 counterexample: both subscription frames begin with an object brace,
not the "[" every serialized JSON array begins with, and the first frame
differs from the array framing `["REQ", subId, filter]` the claim
asserts. -/
theorem c8_counterexample :
    subscriptionFrames.length = 2 ∧
    ((subscriptionFrames.getD 0 "").data.headD ' ') = '\x7b' ∧
    ((subscriptionFrames.getD 0 "").data.headD ' ') ≠ '[' ∧
    ((subscriptionFrames.getD 1 "").data.headD ' ') = '\x7b' ∧
    ((subscriptionFrames.getD 1 "").data.headD ' ') ≠ '[' ∧
    subscriptionFrames.getD 0 "" ≠
      "[\"REQ\",\"profiles\"," ++
        filterJsonString ⟨none, none, some [0], none, none, some 1000, none⟩ ++ "]" :=
  ⟨by decide, by decide, by decide, by decide, by decide, by decide⟩

/-- C9 (confirmed): `index_profile_event` errors exactly when the kind is
not 0 or the content fails to parse, every error is an `InvalidEvent`, and
in every error case the state — profile map, inverted index and stats —
is returned unchanged, the checks preceding every mutation. -/
theorem c9_profile_error_atomic (parse : String → Option Json) (now : Int)
    (st : IndexerState) (e : Event) (src : String) :
    ((index_profile_event parse now st e src).2.isSome = true ↔
      (e.kind ≠ 0 ∨ parse e.content = none)) ∧
    ((index_profile_event parse now st e src).2.isSome = true →
      (index_profile_event parse now st e src).1 = st) ∧
    (∀ er, (index_profile_event parse now st e src).2 = some er →
      ∃ m, er = RelayError.InvalidEvent m) := by
  by_cases hk : e.kind = 0
  · cases hp : parse e.content with
    | none =>
        have hstate : index_profile_event parse now st e src =
            (st, some (.InvalidEvent "Invalid profile JSON")) := by
          simp [index_profile_event, hk, hp]
        rw [hstate]
        refine ⟨by simp [hk, hp], fun _ => rfl, ?_⟩
        intro er her
        injection her with h2
        exact ⟨_, h2.symm⟩
    | some pd =>
        have hstate : index_profile_event parse now st e src =
            (updateStats now
              { st with
                profiles := mapInsert st.profiles e.pubkey
                  (decodeProfile now pd e src (extract_profile_search_terms pd)),
                search_index := insertTerms st.search_index e.pubkey
                  (extract_profile_search_terms pd) }, none) := by
          simp [index_profile_event, hk, hp]
        rw [hstate]
        refine ⟨by simp [hk, hp], ?_, ?_⟩
        · intro hcontra
          simp at hcontra
        · intro er her
          simp at her
  · have hstate : index_profile_event parse now st e src =
        (st, some (.InvalidEvent "Expected kind 0 event for profile")) := by
      simp [index_profile_event, hk]
    rw [hstate]
    refine ⟨by simp [hk], fun _ => rfl, ?_⟩
    intro er her
    injection her with h2
    exact ⟨_, h2.symm⟩

/-- Witness for C9 at a kind-1 event: the call errors and the returned
state is exactly the input state. -/
theorem c9_profile_error_atomic_witness :
    (index_profile_event parseFixture 5 emptyIndexer evKind1 "u").2.isSome = true ∧
    (index_profile_event parseFixture 5 emptyIndexer evKind1 "u").1 = emptyIndexer :=
  ⟨by decide,
    (c9_profile_error_atomic parseFixture 5 emptyIndexer evKind1 "u").2.1 (by decide)⟩

/-- C10 (amended): for representable `usize` parameters, whenever the
offset `page * per_page` computed in `usize` (i.e. reduced modulo 2^64) is
at least the number of matching profiles, `search_profiles` returns
normally with an empty result page while `total_count` still reports the
full number of matches.  The guard spares the slice, so this branch cannot
panic; with the mathematical product the property fails (see the
counterexample), and a debug build panics at the overflowing
multiplication itself. -/
theorem c10_search_out_of_range (st : IndexerState) (query : String)
    (page per_page : Nat)
    (_hpage : page < usizeModulus) (_hper : per_page < usizeModulus)
    (h : (sortedMatches st query).length ≤ (page * per_page) % usizeModulus) :
    search_profiles st query page per_page =
      some (Except.ok ⟨[], (sortedMatches st query).length, page, per_page⟩) := by
  simp only [search_profiles]
  rw [if_neg (not_lt_of_le h)]

/-- Witness for C10: querying "alice" at page 1 with page size 5 against a
single match returns an empty page with total_count still 1. -/
theorem c10_search_out_of_range_witness :
    1 < usizeModulus ∧ 5 < usizeModulus ∧
    (sortedMatches stAlice "alice").length ≤ (1 * 5) % usizeModulus ∧
    search_profiles stAlice "alice" 1 5 =
      some (Except.ok ⟨[], (sortedMatches stAlice "alice").length, 1, 5⟩) :=
  ⟨by decide, by decide, by decide,
    c10_search_out_of_range stAlice "alice" 1 5 (by decide) (by decide) (by decide)⟩

/-- C10 counterexample: at page = per_page = 2^32 with one matching
profile the mathematical product 2^64 is at least the match count, yet the
program's `usize` offset wraps to 0 and the returned results list is the
full non-empty page, not the empty list the claim asserts. -/
theorem c10_counterexample :
    (sortedMatches stAlice "alice").length = 1 ∧
    (sortedMatches stAlice "alice").length ≤ 4294967296 * 4294967296 ∧
    search_profiles stAlice "alice" 4294967296 4294967296 = some (Except.ok
      ⟨[profAliceRec], 1, 4294967296, 4294967296⟩) ∧
    ([profAliceRec] : List Profile) ≠ [] :=
  ⟨by decide, by decide, by rfl, by decide⟩

end Nostr
